import Mathlib

set_option maxRecDepth 100000

/-!
Verification of the connection-handling core of `my_async_minihttp`
(`src/request.rs`, `src/response.rs`, `src/server.rs`, `src/date.rs`)
via a shallow embedding in Lean.

Byte buffers are `List Nat` (each element a byte value).  Machine `usize`
arithmetic that can underflow is modelled with explicit bound checks that
produce a distinguished `panic` outcome where the Rust code would abort
(debug overflow check or out-of-bounds slice).
-/

/-- Byte strings are lists of byte values. -/
abbrev Bytes := List Nat

/-- `DataRange` from `src/request.rs`: a half-open `(start, end)` span. -/
abbrev DataRange := Nat × Nat

/-- ASCII bytes of a Lean string literal (all literals used are ASCII). -/
def strBytes (s : String) : Bytes := s.data.map Char.toNat

/-- Resolve a `DataRange` against a buffer: `buf[a..b]`, as in
`Request::slice` (`src/request.rs` line 54). -/
def sliceBytes (buf : Bytes) (r : DataRange) : Bytes :=
  (buf.drop r.1).take (r.2 - r.1)

/-- Outcome of a parsing step: complete value, need more input, or a
grammar violation.  Mirrors `httparse::Status` plus the error case of
`httparse::Result`. -/
inductive PRes (α : Type) where
  | complete : α → PRes α
  | more : PRes α
  | bad : PRes α
deriving DecidableEq

/-- Modelled from the spec: scan for a single-byte terminator `stop`,
returning the length of the token before it; a CR or LF before the
terminator is a grammar violation, running out of input is `more`.
Models `httparse`'s token scans for method, path and header name
(the `httparse` crate is an external dependency, not under `src/`). -/
def scanTo (stop : Nat) : Bytes → PRes Nat
  | [] => .more
  | b :: rest =>
    if b = stop then .complete 0
    else if b = 13 ∨ b = 10 then .bad
    else
      match scanTo stop rest with
      | .complete k => .complete (k + 1)
      | .more => .more
      | .bad => .bad

/-- Modelled from the spec: scan a header value, which extends to the
next CR; a bare LF is a grammar violation. -/
def scanValue : Bytes → PRes Nat
  | [] => .more
  | b :: rest =>
    if b = 13 then .complete 0
    else if b = 10 then .bad
    else
      match scanValue rest with
      | .complete k => .complete (k + 1)
      | .more => .more
      | .bad => .bad

/-- Modelled from the spec: count of leading spaces/tabs (skipped between
the header colon and the value). -/
def skipWS : Bytes → Nat
  | 32 :: rest => skipWS rest + 1
  | 9 :: rest => skipWS rest + 1
  | _ => 0

/-- Modelled from the spec: match an expected literal byte sequence at the
front of the input. -/
def matchLit : Bytes → Bytes → PRes Unit
  | [], _ => .complete ()
  | _ :: _, [] => .more
  | e :: es, b :: bs => if b = e then matchLit es bs else .bad

/-- Modelled from the spec: parse one `Name: Value CRLF` header line
starting at absolute offset `base`; `l` is the buffer suffix at `base`.
Returns the name range, the value range (absolute offsets) and the
number of bytes consumed. -/
def parseOneHeader (base : Nat) (l : Bytes) :
    PRes ((DataRange × DataRange) × Nat) :=
  match scanTo 58 l with
  | .more => .more
  | .bad => .bad
  | .complete nameLen =>
    match scanValue (l.drop (nameLen + 1 + skipWS (l.drop (nameLen + 1)))) with
    | .more => .more
    | .bad => .bad
    | .complete vLen =>
      match l.get? (nameLen + 1 + skipWS (l.drop (nameLen + 1)) + vLen + 1) with
      | none => .more
      | some b =>
        if b = 10 then
          .complete (((base, base + nameLen),
                      (base + (nameLen + 1 + skipWS (l.drop (nameLen + 1))),
                       base + (nameLen + 1 + skipWS (l.drop (nameLen + 1))) + vLen)),
                     nameLen + 1 + skipWS (l.drop (nameLen + 1)) + vLen + 2)
        else .bad

/-- Modelled from the spec: parse header lines until the terminating blank
line (`CRLF` on its own), with at most `s` header slots remaining
(256 at the top; exceeding the capacity is a violation, as
`httparse::Error::TooManyHeaders`).  Returns the header ranges in order
and the absolute offset just past the blank line. -/
def parseHeaders : Nat → Nat → Bytes → PRes (List (DataRange × DataRange) × Nat)
  | 0, base, l =>
    if l = [] then .more
    else if l = [13] then .more
    else if l.take 2 = [13, 10] then .complete ([], base + 2)
    else .bad
  | s + 1, base, l =>
    if l = [] then .more
    else if l = [13] then .more
    else if l.take 2 = [13, 10] then .complete ([], base + 2)
    else
      match parseOneHeader base l with
      | .more => .more
      | .bad => .bad
      | .complete (h, consumed) =>
        match parseHeaders s (base + consumed) (l.drop consumed) with
        | .complete (hs, endPos) => .complete (h :: hs, endPos)
        | .more => .more
        | .bad => .bad

/-- The fields `httparse` hands back for a complete request head. -/
structure Head where
  method : DataRange
  path : DataRange
  version : Nat
  headers : List (DataRange × DataRange)
  amt : Nat
deriving DecidableEq

/-- Modelled from the spec: recognize a complete request head
`METHOD SP PATH SP HTTP/1.x CRLF (Name: Value CRLF)* CRLF` at the front
of `buf` (the work done by `httparse::Request::parse`, an external
dependency not under `src/`).  `amt` is the number of bytes consumed. -/
def parseRequest (buf : Bytes) : PRes Head :=
  match scanTo 32 buf with
  | .more => .more
  | .bad => .bad
  | .complete mLen =>
    match scanTo 32 (buf.drop (mLen + 1)) with
    | .more => .more
    | .bad => .bad
    | .complete pLen =>
      match matchLit (strBytes "HTTP/1.") (buf.drop (mLen + 1 + pLen + 1)) with
      | .more => .more
      | .bad => .bad
      | .complete _ =>
        match buf.get? (mLen + 1 + pLen + 1 + 7) with
        | none => .more
        | some d =>
          if d = 48 ∨ d = 49 then
            match buf.get? (mLen + 1 + pLen + 1 + 8) with
            | none => .more
            | some b8 =>
              if b8 = 13 then
                match buf.get? (mLen + 1 + pLen + 1 + 9) with
                | none => .more
                | some b9 =>
                  if b9 = 10 then
                    match parseHeaders 256 (mLen + 1 + pLen + 1 + 10)
                        (buf.drop (mLen + 1 + pLen + 1 + 10)) with
                    | .complete (hs, amt) =>
                      .complete ⟨(0, mLen), (mLen + 1, mLen + 1 + pLen),
                                 d - 48, hs, amt⟩
                    | .more => .more
                    | .bad => .bad
                  else .bad
              else .bad
          else .bad

/-- Base-10 digits parse, the digits part of `usize::from_str_radix`
(`src/request.rs` line 77): nonempty, all ASCII digits. -/
def digitsVal (v : Bytes) : Option Nat :=
  if v ≠ [] ∧ v.all (fun b => decide (48 ≤ b ∧ b ≤ 57)) then
    some (v.foldl (fun a b => a * 10 + (b - 48)) 0)
  else none

/-- `usize::from_str_radix(s, 10)` on the lossy-decoded value bytes:
an optional leading `+` then base-10 digits (`src/request.rs` line 77).
Overflow of `usize` is not modelled (values are unbounded `Nat`). -/
def parseCL (v : Bytes) : Option Nat :=
  match v with
  | 43 :: rest => digitsVal rest
  | _ => digitsVal v

/-- The `body_len` computation of `decode` (`src/request.rs` lines
72-83): fold over the parsed headers, and for each header whose name
bytes are exactly `Content-Length` (byte equality, as the Rust
`name == "Content-Length"`), overwrite the accumulator with the parsed
value, defaulting to 0 on parse failure. -/
def bodyLenOf (buf : Bytes) (hs : List (DataRange × DataRange)) : Nat :=
  hs.foldl
    (fun acc h =>
      if sliceBytes buf h.1 = strBytes "Content-Length" then
        (parseCL (sliceBytes buf h.2)).getD 0
      else acc)
    0

/-- `Request` from `src/request.rs`.  The Rust 256-slot header array is
a 256-element list: the first `header_len` entries come from the parse,
the rest are the uninitialized junk slots (the fill value is a
parameter of `decode`). -/
structure Request where
  method : DataRange
  path : DataRange
  version : Nat
  headers : List (DataRange × DataRange)
  data : Bytes
  body : Option Bytes
  header_len : Nat
  body_len : Nat
deriving DecidableEq

/-- `decode` from `src/request.rs` (lines 59-95).  Takes the fill value
`junk` standing for the uninitialized header slots.  Returns the Rust
`Result<Option<Request>, Error>` together with the buffer as left after
the call (`buf.split_to(amt)` detaches the head on success; the buffer
is untouched otherwise). -/
def decode (junk : DataRange × DataRange) (buf : Bytes) :
    Except Unit (Option Request) × Bytes :=
  match parseRequest buf with
  | .more => (.ok none, buf)
  | .bad => (.error (), buf)
  | .complete h =>
    (.ok (some
      { method := h.method
        path := h.path
        version := h.version
        headers := h.headers ++ List.replicate (256 - h.headers.length) junk
        data := buf.take h.amt
        body := none
        header_len := h.headers.length
        body_len := bodyLenOf buf h.headers }),
     buf.drop h.amt)

instance {ε α : Type} [DecidableEq ε] [DecidableEq α] :
    DecidableEq (Except ε α) := fun x y =>
  match x, y with
  | .ok a, .ok b =>
    if h : a = b then .isTrue (by rw [h]) else .isFalse (by simp [h])
  | .error a, .error b =>
    if h : a = b then .isTrue (by rw [h]) else .isFalse (by simp [h])
  | .ok _, .error _ => .isFalse (by simp)
  | .error _, .ok _ => .isFalse (by simp)

/-- A fixed junk fill for concrete evaluations. -/
def junk0 : DataRange × DataRange := ((0, 0), (0, 0))

/-- The output of the `headers()` accessor (`src/request.rs` lines
41-46 and 103-112): the first `header_len` array entries, each resolved
against the frozen `data` region. -/
def resolvedHeaders (req : Request) : List (Bytes × Bytes) :=
  (req.headers.take req.header_len).map
    fun p => (sliceBytes req.data p.1, sliceBytes req.data p.2)

/-- `StatusMsg` from `src/response.rs` (lines 15-18): the default
`200 OK` or a custom code and message. -/
inductive StatusMsg where
  | ok : StatusMsg
  | custom : Nat → Bytes → StatusMsg
deriving DecidableEq

/-- Decimal digit bytes of a natural number, as `Display` renders an
unsigned integer. -/
def natDecimal (n : Nat) : Bytes := (Nat.toDigits 10 n).map Char.toNat

/-- `StatusMsg`'s `Display` (`src/response.rs` lines 82-89). -/
def statusMsgText : StatusMsg → Bytes
  | .ok => strBytes "200 OK"
  | .custom c msg => natDecimal c ++ [32] ++ msg

/-- `Response` from `src/response.rs`: caller headers (name bytes,
value bytes) in insertion order, the accumulated body bytes
(`response` field), and the status. -/
structure Response where
  headers : List (Bytes × Bytes)
  response : Bytes
  status_msg : StatusMsg
deriving DecidableEq

/-- `Response::new` (`src/response.rs` lines 23-29). -/
def Response.new : Response :=
  { headers := [], response := [], status_msg := .ok }

/-- `Response::status_code` (`src/response.rs` lines 30-33). -/
def Response.statusCode (r : Response) (code : Nat) (msg : Bytes) : Response :=
  { r with status_msg := .custom code msg }

/-- `Response::header` (`src/response.rs` lines 34-40). -/
def Response.addHeader (r : Response) (name val : Bytes) : Response :=
  { r with headers := r.headers ++ [(name, val)] }

/-- `Response::body` / `body_bytes` (`src/response.rs` lines 41-50):
clear the accumulator, then put the new bytes. -/
def Response.setBody (r : Response) (b : Bytes) : Response :=
  { r with response := b }

/-- `Response::encode` (`src/response.rs` lines 51-72).  `now` is the
text the Cached Clock yields for the `Date` header.  The head is what
the single `write!` emits; then each caller header is appended as
`name`, `": "`, `value`, CRLF; then the blank line; then the body. -/
def Response.encode (r : Response) (now : Bytes) : Bytes :=
  (r.headers.foldl
    (fun b h => b ++ h.1 ++ strBytes ": " ++ h.2 ++ [13, 10])
    (strBytes "HTTP/1.1 " ++ statusMsgText r.status_msg ++
     strBytes "\r\nServer: Example\r\nContent-Length: " ++
     natDecimal r.response.length ++
     strBytes "\r\nDate: " ++ now ++ strBytes "\r\n")) ++ [13, 10] ++ r.response

/-- `internal_error_resp` (`src/server.rs` lines 115-121): a fresh
builder with status `500 Internal Server Error` and the failure's
textual description as body. -/
def internal_error_resp (e : Bytes) : Response :=
  (Response.new.statusCode 500 (strBytes "Internal Server Error")).setBody e

/-- The response-bytes computation of `process_and_write_response`
(`src/server.rs` lines 198-203): on callback failure the builder is
discarded and the synthesized error response is encoded, otherwise the
builder is encoded. -/
def respBytes (callRes : Except Bytes Unit) (resp : Response) (now : Bytes) :
    Bytes :=
  match callRes with
  | .error e => (internal_error_resp e).encode now
  | .ok _ => resp.encode now

/-- One socket-write result: `Ok(n)` or `Err(_)`. -/
inductive WriteEv where
  | ok : Nat → WriteEv
  | err : WriteEv
deriving DecidableEq

/-- Outcome of the write loop: `done r` models falling out of the loop
and returning `Ok(())` with `r` bytes still unwritten; `sockErr` models
returning the socket error; `blocked` means the result script ran out
while bytes remained (the real loop would wait on the socket); `panic`
models the `usize` underflow of `left -= n` when a write reports more
bytes than remained. -/
inductive WOut where
  | done : Nat → WOut
  | sockErr : WOut
  | blocked : WOut
  | panic : WOut
deriving DecidableEq

/-- The write loop of `process_and_write_response` (`src/server.rs`
lines 204-215), driven by a script of write results: while bytes
remain, take the next result; `Ok(0)` breaks out of the loop
(`Ok(0) => break`), `Ok(n)` advances past the partial write, `Err`
returns the error. -/
def writeLoop : List WriteEv → Nat → WOut
  | _, 0 => .done 0
  | [], _ + 1 => .blocked
  | .err :: _, _ + 1 => .sockErr
  | .ok n :: rest, left + 1 =>
    if n = 0 then .done (left + 1)
    else if left + 1 < n then .panic
    else writeLoop rest (left + 1 - n)

/-- `process_and_write_response` (`src/server.rs` lines 193-216) at the
transport level: compute the response bytes, then run the write loop on
their length. -/
def process_and_write_response (callRes : Except Bytes Unit)
    (resp : Response) (now : Bytes) (script : List WriteEv) : WOut :=
  writeLoop script (respBytes callRes resp now).length

/-- `CachedNow` from `src/date.rs` (lines 12-16).  Time is in
milliseconds.  Modelled from the spec: the formatted text (chrono's
`to_rfc2822`, an external dependency) is represented by the calendar
second it displays, `now / 1000` — the formatter is constant within one
second and strictly increasing across seconds. -/
structure CachedNow where
  text : Nat
  next_update : Option Nat
deriving DecidableEq

/-- `CachedNow::update` (`src/date.rs` lines 59-63): re-format the
current time and set the expiry one second later. -/
def CachedNow.update (c : CachedNow) (now : Nat) : CachedNow :=
  { text := now / 1000, next_update := some (now + 1000) }

/-- `Now`'s `Display` (`src/date.rs` lines 37-53): if the current time
has passed the stored expiry (or no cache exists), re-format; otherwise
return the stored text unchanged.  Returns the emitted text and the
cache state after the call. -/
def nowFmt (now : Nat) (c : CachedNow) : Nat × CachedNow :=
  match c.next_update with
  | some nu =>
    if nu < now then
      let c' := c.update now
      (c'.text, c')
    else (c.text, c)
  | none =>
    let c' := c.update now
    (c'.text, c')

/-- One socket-read result for the connection handler: a chunk of bytes
(`Ok(n)` with the bytes read, `Ok(0)` when the chunk is empty) or an
error. -/
inductive ReadEv where
  | chunk : Bytes → ReadEv
  | err : ReadEv
deriving DecidableEq

/-- The per-connection state of `handler` (`src/server.rs` lines
124-129): the receive buffer, `req_bytes_cnt`, `reading_body`,
`remain_body_len`, `req_slot`. -/
structure HState where
  pool : Bytes
  cnt : Nat
  readingBody : Bool
  remain : Option Nat
  slot : Option Request
deriving DecidableEq

/-- Outcome of the handler's read loop: `response req` models breaking
out to `process_and_write_response` with the assembled request;
`closed` models `Ok(0)` from a read (peer closed, return `Ok(())`);
`incompleteAnomaly` the `Ok(None)` decode branch; `parseError` the decode
error branch; `ioError` a read error; `panic` a `usize` underflow or
out-of-bounds slice; `needMore` means the read script was exhausted
while the loop still wanted more input. -/
inductive HOut where
  | response : Request → HOut
  | closed : HOut
  | incompleteAnomaly : HOut
  | parseError : HOut
  | ioError : HOut
  | panic : HOut
  | needMore : HOut
deriving DecidableEq

/-- The read loop of `handler` (`src/server.rs` lines 131-190), driven
by a script of read results.  Each iteration mirrors the source: bump
`req_bytes_cnt`, decrement `remain_body_len` if set (underflow when the
peer sends more than the declared length is a panic), append the chunk,
check whether the last four received bytes are CRLF CRLF (slicing
`bytes_pool[req_bytes_cnt - 4..req_bytes_cnt]` underflows when fewer
than four bytes have been received), and on a section end either decode
the head or finish the body. -/
def handlerRun (junk : DataRange × DataRange) :
    List ReadEv → HState → HOut
  | [], _ => .needMore
  | .err :: _, _ => .ioError
  | .chunk c :: rest, st =>
    if c = [] then .closed
    else if st.remain.any (fun k => decide (k < c.length)) then .panic
    else
      let n := c.length
      let remain' := st.remain.map (fun k => k - n)
      let cnt := st.cnt + n
      let pool := st.pool ++ c
      if cnt < 4 ∨ pool.length < cnt then .panic
      else if (pool.drop (cnt - 4)).take 4 = [13, 10, 13, 10] then
        if st.readingBody = false then
          match decode junk pool with
          | (.error _, _) => .parseError
          | (.ok none, _) => .incompleteAnomaly
          | (.ok (some req), pool') =>
            if req.body_len = 0 then .response req
            else if req.body_len < pool'.length then .panic
            else if req.body_len - pool'.length = 0 then
              .response { req with body := some (pool'.take req.body_len) }
            else
              handlerRun junk rest
                { pool := pool', cnt := pool'.length, readingBody := true,
                  remain := some (req.body_len - pool'.length),
                  slot := some req }
        else
          match remain' with
          | some 0 =>
            match st.slot with
            | none => .panic
            | some req =>
              if pool.length < req.body_len then .panic
              else .response { req with body := some (pool.take req.body_len) }
          | _ =>
            handlerRun junk rest
              { st with pool := pool, cnt := cnt, remain := remain' }
      else
        handlerRun junk rest
          { st with pool := pool, cnt := cnt, remain := remain' }

/-- `handler` (`src/server.rs` line 123): run the read loop from the
initial state. -/
def handler (junk : DataRange × DataRange) (script : List ReadEv) : HOut :=
  handlerRun junk script
    { pool := [], cnt := 0, readingBody := false, remain := none,
      slot := none }

/-! ### Parser bounds lemmas -/

theorem scanTo_lt (stop : Nat) :
    ∀ (l : Bytes) (k : Nat), scanTo stop l = .complete k → k < l.length := by
  intro l
  induction l with
  | nil => intro k h; simp [scanTo] at h
  | cons b rest ih =>
    intro k h
    unfold scanTo at h
    split at h
    · cases h; simp
    · split at h
      · cases h
      · split at h
        · cases h
          simpa [Nat.succ_lt_succ_iff] using ih _ (by assumption)
        · cases h
        · cases h

theorem scanValue_lt :
    ∀ (l : Bytes) (k : Nat), scanValue l = .complete k → k < l.length := by
  intro l
  induction l with
  | nil => intro k h; simp [scanValue] at h
  | cons b rest ih =>
    intro k h
    unfold scanValue at h
    split at h
    · cases h; simp
    · split at h
      · cases h
      · split at h
        · cases h
          simpa [Nat.succ_lt_succ_iff] using ih _ (by assumption)
        · cases h
        · cases h

theorem scanValue_stop :
    ∀ (l : Bytes) (k : Nat), scanValue l = .complete k → l.get? k = some 13 := by
  intro l
  induction l with
  | nil => intro k h; simp [scanValue] at h
  | cons b rest ih =>
    intro k h
    unfold scanValue at h
    split at h
    · cases h; simp; assumption
    · split at h
      · cases h
      · split at h
        · cases h
          simpa using ih _ (by assumption)
        · cases h
        · cases h

theorem parseOneHeader_bounds (base : Nat) (l : Bytes) (nr vr : DataRange)
    (consumed : Nat)
    (h : parseOneHeader base l = .complete ((nr, vr), consumed)) :
    2 ≤ consumed ∧ consumed ≤ l.length ∧
    base ≤ nr.1 ∧ nr.1 ≤ nr.2 ∧ nr.2 + 2 ≤ base + consumed ∧
    base ≤ vr.1 ∧ vr.1 ≤ vr.2 ∧ vr.2 + 2 = base + consumed ∧
    l.get? (consumed - 2) = some 13 ∧ l.get? (consumed - 1) = some 10 := by
  unfold parseOneHeader at h
  split at h
  · cases h
  · cases h
  · rename_i nameLen hname
    split at h
    · cases h
    · cases h
    · rename_i vLen hval
      split at h
      · cases h
      · rename_i b hb
        split at h
        · rename_i hb10
          cases h
          have hnl := scanTo_lt 58 l nameLen hname
          have hvl := scanValue_lt _ vLen hval
          have hvstop := scanValue_stop _ vLen hval
          obtain ⟨hbl, -⟩ := List.get?_eq_some.mp hb
          subst hb10
          rw [List.get?_drop] at hvstop
          refine ⟨by omega, by omega, by omega, by omega, by omega, by omega,
                  by omega, by omega, ?_, ?_⟩
          · have heq :
                nameLen + 1 + skipWS (l.drop (nameLen + 1)) + vLen + 2 - 2 =
                nameLen + 1 + skipWS (l.drop (nameLen + 1)) + vLen := by omega
            rw [heq]
            exact hvstop
          · have heq :
                nameLen + 1 + skipWS (l.drop (nameLen + 1)) + vLen + 2 - 1 =
                nameLen + 1 + skipWS (l.drop (nameLen + 1)) + vLen + 1 := by omega
            rw [heq]
            exact hb
        · cases h

theorem parseHeaders_bounds (s : Nat) :
    ∀ (base : Nat) (l : Bytes) (hs : List (DataRange × DataRange)) (e : Nat),
      parseHeaders s base l = .complete (hs, e) →
      base + 2 ≤ e ∧ e ≤ base + l.length ∧
      ∀ p ∈ hs, base ≤ p.1.1 ∧ p.1.1 ≤ p.1.2 ∧ p.1.2 + 2 ≤ e ∧
                base ≤ p.2.1 ∧ p.2.1 ≤ p.2.2 ∧ p.2.2 + 2 ≤ e := by
  induction s with
  | zero =>
    intro base l hs e h
    unfold parseHeaders at h
    split at h
    · cases h
    · split at h
      · cases h
      · split at h
        · rename_i htake
          cases h
          have : (l.take 2).length = 2 := by rw [htake]; rfl
          have h2 : 2 ≤ l.length := by
            rw [List.length_take] at this; omega
          exact ⟨le_refl _, by omega, by intro p hp; cases hp⟩
        · cases h
  | succ s ih =>
    intro base l hs e h
    unfold parseHeaders at h
    split at h
    · cases h
    · split at h
      · cases h
      · split at h
        · rename_i htake
          cases h
          have : (l.take 2).length = 2 := by rw [htake]; rfl
          have h2 : 2 ≤ l.length := by
            rw [List.length_take] at this; omega
          exact ⟨le_refl _, by omega, by intro p hp; cases hp⟩
        · split at h
          · cases h
          · cases h
          · rename_i hdr consumed hone
            obtain ⟨nr, vr⟩ := hdr
            split at h
            · rename_i hs' e' hrec
              cases h
              have hb := parseOneHeader_bounds base l nr vr consumed hone
              have hrec' := ih _ _ _ _ hrec
              rw [List.length_drop] at hrec'
              obtain ⟨hb1, hb2, hb3, hb4, hb5, hb6, hb7, hb8, -, -⟩ := hb
              obtain ⟨hr1, hr2, hr3⟩ := hrec'
              refine ⟨by omega, by omega, ?_⟩
              intro p hp
              rcases List.mem_cons.mp hp with hp | hp
              · subst hp
                refine ⟨?_, ?_, ?_, ?_, ?_, ?_⟩ <;> dsimp only <;> omega
              · have hm := hr3 p hp
                exact ⟨by omega, hm.2.1, hm.2.2.1, by omega,
                       hm.2.2.2.2.1, hm.2.2.2.2.2⟩
            · cases h
            · cases h

theorem take_two_get (l : Bytes) (a b : Nat) (h : l.take 2 = [a, b]) :
    l.get? 0 = some a ∧ l.get? 1 = some b := by
  match l with
  | [] => simp at h
  | [x] => simp at h
  | x :: y :: rest =>
    simp at h
    obtain ⟨h1, h2⟩ := h
    subst h1; subst h2
    simp

theorem parseHeaders_tail (s : Nat) :
    ∀ (base : Nat) (buf : Bytes) (hs : List (DataRange × DataRange)) (e : Nat),
      2 ≤ base →
      buf.get? (base - 2) = some 13 → buf.get? (base - 1) = some 10 →
      parseHeaders s base (buf.drop base) = .complete (hs, e) →
      buf.get? (e - 4) = some 13 ∧ buf.get? (e - 3) = some 10 ∧
      buf.get? (e - 2) = some 13 ∧ buf.get? (e - 1) = some 10 := by
  induction s with
  | zero =>
    intro base buf hs e hb2 hc1 hc2 h
    unfold parseHeaders at h
    split at h
    · cases h
    · split at h
      · cases h
      · split at h
        · rename_i htake
          cases h
          obtain ⟨g0, g1⟩ := take_two_get _ _ _ htake
          rw [List.get?_drop] at g0 g1
          refine ⟨?_, ?_, ?_, ?_⟩
          · have he : base + 2 - 4 = base - 2 := by omega
            rw [he]; exact hc1
          · have he : base + 2 - 3 = base - 1 := by omega
            rw [he]; exact hc2
          · have he : base + 2 - 2 = base + 0 := by omega
            rw [he]; exact g0
          · have he : base + 2 - 1 = base + 1 := by omega
            rw [he]; exact g1
        · cases h
  | succ s ih =>
    intro base buf hs e hb2 hc1 hc2 h
    unfold parseHeaders at h
    split at h
    · cases h
    · split at h
      · cases h
      · split at h
        · rename_i htake
          cases h
          obtain ⟨g0, g1⟩ := take_two_get _ _ _ htake
          rw [List.get?_drop] at g0 g1
          refine ⟨?_, ?_, ?_, ?_⟩
          · have he : base + 2 - 4 = base - 2 := by omega
            rw [he]; exact hc1
          · have he : base + 2 - 3 = base - 1 := by omega
            rw [he]; exact hc2
          · have he : base + 2 - 2 = base + 0 := by omega
            rw [he]; exact g0
          · have he : base + 2 - 1 = base + 1 := by omega
            rw [he]; exact g1
        · split at h
          · cases h
          · cases h
          · rename_i hdr consumed hone
            obtain ⟨nr, vr⟩ := hdr
            split at h
            · rename_i hs' e' hrec
              cases h
              have hb := parseOneHeader_bounds base (buf.drop base) nr vr
                consumed hone
              obtain ⟨hbc2, hbcl, -, -, -, -, -, -, hcr, hlf⟩ := hb
              rw [List.get?_drop] at hcr hlf
              rw [List.drop_drop] at hrec
              have h1 : buf.get? (base + consumed - 2) = some 13 := by
                have heq : base + consumed - 2 = base + (consumed - 2) := by
                  omega
                rw [heq]; exact hcr
              have h2 : buf.get? (base + consumed - 1) = some 10 := by
                have heq : base + consumed - 1 = base + (consumed - 1) := by
                  omega
                rw [heq]; exact hlf
              exact ih (base + consumed) buf _ _ (by omega) h1 h2 hrec
            · cases h
            · cases h

theorem parseRequest_bounds (buf : Bytes) (hd : Head)
    (hp : parseRequest buf = .complete hd) :
    hd.amt ≤ buf.length ∧ 4 ≤ hd.amt ∧
    hd.method.1 ≤ hd.method.2 ∧ hd.method.2 ≤ hd.amt ∧
    hd.path.1 ≤ hd.path.2 ∧ hd.path.2 ≤ hd.amt ∧
    (∀ p ∈ hd.headers, p.1.1 ≤ p.1.2 ∧ p.1.2 ≤ hd.amt ∧
                       p.2.1 ≤ p.2.2 ∧ p.2.2 ≤ hd.amt) ∧
    buf.get? (hd.amt - 4) = some 13 ∧ buf.get? (hd.amt - 3) = some 10 ∧
    buf.get? (hd.amt - 2) = some 13 ∧ buf.get? (hd.amt - 1) = some 10 := by
  unfold parseRequest at hp
  split at hp
  · cases hp
  · cases hp
  · rename_i mLen hm
    split at hp
    · cases hp
    · cases hp
    · rename_i pLen hpth
      split at hp
      · cases hp
      · cases hp
      · split at hp
        · cases hp
        · rename_i d hdig
          split at hp
          · split at hp
            · cases hp
            · rename_i b8 hb8
              split at hp
              · rename_i hb813
                split at hp
                · cases hp
                · rename_i b9 hb9
                  split at hp
                  · rename_i hb910
                    split at hp
                    · rename_i hs amt hhdrs
                      cases hp
                      subst hb813
                      subst hb910
                      have hbnd := parseHeaders_bounds 256 _ _ _ _ hhdrs
                      rw [List.length_drop] at hbnd
                      obtain ⟨hba, hbb, hbc⟩ := hbnd
                      obtain ⟨hb9lt, -⟩ := List.get?_eq_some.mp hb9
                      have htail := parseHeaders_tail 256
                        (mLen + 1 + pLen + 1 + 10) buf hs amt (by omega)
                        (by
                          have heq : mLen + 1 + pLen + 1 + 10 - 2 =
                            mLen + 1 + pLen + 1 + 8 := by omega
                          rw [heq]; exact hb8)
                        (by
                          have heq : mLen + 1 + pLen + 1 + 10 - 1 =
                            mLen + 1 + pLen + 1 + 9 := by omega
                          rw [heq]; exact hb9)
                        hhdrs
                      dsimp only
                      refine ⟨by omega, by omega, by omega, by omega,
                              by omega, by omega, ?_,
                              htail.1, htail.2.1, htail.2.2.1, htail.2.2.2⟩
                      intro p hp
                      have := hbc p hp
                      exact ⟨this.2.1, by omega, this.2.2.2.2.1, by omega⟩
                    · cases hp
                    · cases hp
                  · cases hp
              · cases hp
          · cases hp

theorem decode_complete_elim (junk : DataRange × DataRange) (buf rest : Bytes)
    (req : Request) (h : decode junk buf = (Except.ok (some req), rest)) :
    ∃ hd : Head, parseRequest buf = .complete hd ∧
      req.method = hd.method ∧ req.path = hd.path ∧ req.version = hd.version ∧
      req.headers = hd.headers ++ List.replicate (256 - hd.headers.length) junk ∧
      req.data = buf.take hd.amt ∧ req.body = none ∧
      req.header_len = hd.headers.length ∧
      req.body_len = bodyLenOf buf hd.headers ∧
      rest = buf.drop hd.amt := by
  unfold decode at h
  split at h
  · simp at h
  · simp at h
  · rename_i hd hpr
    rw [Prod.mk.injEq] at h
    obtain ⟨h1, h2⟩ := h
    rw [Except.ok.injEq, Option.some.injEq] at h1
    subst h1
    exact ⟨hd, hpr, rfl, rfl, rfl, rfl, rfl, rfl, rfl, rfl, h2.symm⟩

theorem sliceBytes_take (l : Bytes) (m : Nat) (r : DataRange)
    (h1 : r.1 ≤ r.2) (h2 : r.2 ≤ m) :
    sliceBytes (l.take m) r = sliceBytes l r := by
  unfold sliceBytes
  rw [List.drop_take, List.take_take]
  congr 1
  exact inf_eq_left.mpr (by omega)

theorem drop_tail_four (l : Bytes) (i a b c d : Nat)
    (hlen : l.length = i + 4)
    (ha : l.get? i = some a) (hb : l.get? (i + 1) = some b)
    (hc : l.get? (i + 2) = some c) (hd : l.get? (i + 3) = some d) :
    l.drop i = [a, b, c, d] := by
  apply List.ext_get?
  intro n
  rw [List.get?_drop]
  match n with
  | 0 => simpa using ha
  | 1 => simpa using hb
  | 2 => simpa using hc
  | 3 => simpa using hd
  | n + 4 =>
    rw [List.get?_eq_none.mpr (by omega), List.get?_eq_none.mpr (by simp)]

/-! ### Claim theorems -/

/-- C5: `decode` mutates its input buffer if and only if it returns
Complete: on an Incomplete (`Ok(None)`) result and on a Malformed
(`Err`) result the buffer is left unchanged (the decoder is a pure
function of the buffer, keeping no state across calls); on Complete,
exactly the head bytes — ending with the terminating blank line
CRLF CRLF — are detached from the front of the buffer into the
independently owned frozen `data` region, against which all ranges of
the returned request resolve in bounds. -/
theorem c5_decode_mutates_iff_complete (junk : DataRange × DataRange)
    (buf : Bytes) :
    ((decode junk buf).1 = Except.ok none → (decode junk buf).2 = buf) ∧
    ((decode junk buf).1 = Except.error () → (decode junk buf).2 = buf) ∧
    (∀ req, (decode junk buf).1 = Except.ok (some req) →
      req.data ++ (decode junk buf).2 = buf ∧
      4 ≤ req.data.length ∧
      req.data.drop (req.data.length - 4) = [13, 10, 13, 10] ∧
      req.method.1 ≤ req.method.2 ∧ req.method.2 ≤ req.data.length ∧
      req.path.1 ≤ req.path.2 ∧ req.path.2 ≤ req.data.length ∧
      ∀ p ∈ req.headers.take req.header_len,
        p.1.1 ≤ p.1.2 ∧ p.1.2 ≤ req.data.length ∧
        p.2.1 ≤ p.2.2 ∧ p.2.2 ≤ req.data.length) := by
  refine ⟨?_, ?_, ?_⟩
  · intro h
    cases hE : parseRequest buf with
    | complete hd => simp [decode, hE] at h
    | more => simp [decode, hE]
    | bad => simp [decode, hE] at h
  · intro h
    cases hE : parseRequest buf with
    | complete hd => simp [decode, hE] at h
    | more => simp [decode, hE] at h
    | bad => simp [decode, hE]
  · intro req h
    have hfull : decode junk buf = (Except.ok (some req), (decode junk buf).2) := by
      rw [← h]
    obtain ⟨hd, hpr, hm, hp2, hv, hheaders, hdata, hbody, hlen, hbl, hrest⟩ :=
      decode_complete_elim junk buf _ req hfull
    obtain ⟨hamt, h4, hm1, hm2, hpa1, hpa2, hhdr, t1, t2, t3, t4⟩ :=
      parseRequest_bounds buf hd hpr
    have hdlen : req.data.length = hd.amt := by
      rw [hdata]; exact List.length_take_of_le hamt
    refine ⟨?_, ?_, ?_, ?_, ?_, ?_, ?_, ?_⟩
    · rw [hdata, hrest, List.take_append_drop]
    · omega
    · rw [hdlen]
      apply drop_tail_four req.data (hd.amt - 4) 13 10 13 10 (by omega)
      · rw [hdata, List.get?_take (by omega)]
        have he : hd.amt - 4 = hd.amt - 4 := rfl
        exact t1
      · rw [hdata, List.get?_take (by omega)]
        have he : hd.amt - 4 + 1 = hd.amt - 3 := by omega
        rw [he]; exact t2
      · rw [hdata, List.get?_take (by omega)]
        have he : hd.amt - 4 + 2 = hd.amt - 2 := by omega
        rw [he]; exact t3
      · rw [hdata, List.get?_take (by omega)]
        have he : hd.amt - 4 + 3 = hd.amt - 1 := by omega
        rw [he]; exact t4
    · rw [hm]; exact hm1
    · rw [hm, hdlen]; exact hm2
    · rw [hp2]; exact hpa1
    · rw [hp2, hdlen]; exact hpa2
    · intro p hp
      rw [hheaders, hlen, List.take_left' rfl] at hp
      have := hhdr p hp
      rw [hdlen]
      exact ⟨this.1, this.2.1, this.2.2.1, this.2.2.2⟩

/-- C5 witness: the Complete case at scenario A input, with its
hypothesis discharged by evaluation. -/
theorem c5_witness :
    ∃ req, (decode junk0 (strBytes "GET / HTTP/1.1\r\nHost: x\r\n\r\n")).1 =
        Except.ok (some req) ∧
      req.data ++ (decode junk0 (strBytes "GET / HTTP/1.1\r\nHost: x\r\n\r\n")).2 =
        strBytes "GET / HTTP/1.1\r\nHost: x\r\n\r\n" := by
  have h : (decode junk0 (strBytes "GET / HTTP/1.1\r\nHost: x\r\n\r\n")).1 =
      Except.ok (some (Request.mk (0, 3) (4, 5) 1
        (((16, 20), (22, 23)) :: List.replicate 255 junk0)
        (strBytes "GET / HTTP/1.1\r\nHost: x\r\n\r\n") none 1 0)) := by decide
  exact ⟨_, h,
    ((c5_decode_mutates_iff_complete junk0
      (strBytes "GET / HTTP/1.1\r\nHost: x\r\n\r\n")).2.2 _ h).1⟩

/-- C10: every `Request` returned by `decode` has its method range, path
range, and each of the first `header_len` header name/value ranges
satisfying start ≤ end ≤ data.length against the frozen head region, so
`method()`, `path()` and the `headers()` iterator never index out of
bounds; the 256-slot array entries at `header_len` or beyond are never
read by any accessor: decoding with a different fill value for the
uninitialized slots yields identical accessor views. -/
theorem c10_request_ranges_wf (junk junkAlt : DataRange × DataRange)
    (buf rest : Bytes) (req : Request)
    (h : decode junk buf = (Except.ok (some req), rest)) :
    (req.method.1 ≤ req.method.2 ∧ req.method.2 ≤ req.data.length) ∧
    (req.path.1 ≤ req.path.2 ∧ req.path.2 ≤ req.data.length) ∧
    (∀ p ∈ req.headers.take req.header_len,
      p.1.1 ≤ p.1.2 ∧ p.1.2 ≤ req.data.length ∧
      p.2.1 ≤ p.2.2 ∧ p.2.2 ≤ req.data.length) ∧
    (∃ reqAlt, decode junkAlt buf = (Except.ok (some reqAlt), rest) ∧
      resolvedHeaders reqAlt = resolvedHeaders req ∧
      reqAlt.method = req.method ∧ reqAlt.path = req.path ∧
      reqAlt.version = req.version ∧ reqAlt.data = req.data ∧
      reqAlt.body_len = req.body_len) := by
  obtain ⟨hd, hpr, hm, hp2, hv, hheaders, hdata, hbody, hlen, hbl, hrest⟩ :=
    decode_complete_elim junk buf _ req h
  obtain ⟨hamt, h4, hm1, hm2, hpa1, hpa2, hhdr, -, -, -, -⟩ :=
    parseRequest_bounds buf hd hpr
  have hdlen : req.data.length = hd.amt := by
    rw [hdata]; exact List.length_take_of_le hamt
  refine ⟨⟨by rw [hm]; exact hm1, by rw [hm, hdlen]; exact hm2⟩,
          ⟨by rw [hp2]; exact hpa1, by rw [hp2, hdlen]; exact hpa2⟩, ?_, ?_⟩
  · intro p hp
    rw [hheaders, hlen, List.take_left' rfl] at hp
    have := hhdr p hp
    rw [hdlen]
    exact ⟨this.1, this.2.1, this.2.2.1, this.2.2.2⟩
  · refine ⟨Request.mk hd.method hd.path hd.version
      (hd.headers ++ List.replicate (256 - hd.headers.length) junkAlt)
      (buf.take hd.amt) none hd.headers.length (bodyLenOf buf hd.headers),
      ?_, ?_, ?_, ?_, ?_, ?_, ?_⟩
    · unfold decode
      rw [hpr, hrest]
    · unfold resolvedHeaders
      dsimp only
      rw [hheaders, hlen, hdata]
      rw [List.take_left' rfl, List.take_left' rfl]
    · dsimp only; rw [hm]
    · dsimp only; rw [hp2]
    · dsimp only; rw [hv]
    · dsimp only; rw [hdata]
    · dsimp only; rw [hbl]

/-- C10 witness: the theorem applied at scenario A input, with the
hypothesis discharged by evaluation. -/
theorem c10_witness :
    ∃ req, decode junk0 (strBytes "GET / HTTP/1.1\r\nHost: x\r\n\r\n") =
        (Except.ok (some req), []) ∧
      req.method.1 ≤ req.method.2 ∧ req.method.2 ≤ req.data.length := by
  have h : decode junk0 (strBytes "GET / HTTP/1.1\r\nHost: x\r\n\r\n") =
      (Except.ok (some (Request.mk (0, 3) (4, 5) 1
        (((16, 20), (22, 23)) :: List.replicate 255 junk0)
        (strBytes "GET / HTTP/1.1\r\nHost: x\r\n\r\n") none 1 0)), []) := by decide
  exact ⟨_, h,
    (c10_request_ranges_wf junk0 ((1, 1), (1, 1)) _ _ _ h).1⟩

/-- Modelled from the spec (amended): the declared body length is
obtained by scanning the resolved headers in order; each header whose
name equals `Content-Length` by exact byte equality (case-sensitive, as
the source's `name == "Content-Length"` — the claim's case-insensitive
comparison is what fails) overwrites the result with the base-10 parse
of its value, defaulting to 0 on parse failure; absence gives 0. -/
def declaredBodyLen (hs : List (Bytes × Bytes)) : Nat :=
  hs.foldl
    (fun acc h =>
      if h.1 = strBytes "Content-Length" then (parseCL h.2).getD 0 else acc)
    0

/-- C3 counterexample: a header named `content-length` (differing from
`Content-Length` only in case) with value `5` is not used: the decoded
request has `body_len = 0`, not 5, refuting the case-insensitive
comparison stated by the claim. -/
theorem c3_counterexample :
    ∃ req, decode junk0 (strBytes "GET / HTTP/1.1\r\ncontent-length: 5\r\n\r\n") =
        (Except.ok (some req), []) ∧
      resolvedHeaders req = [(strBytes "content-length", strBytes "5")] ∧
      parseCL (strBytes "5") = some 5 ∧
      req.body_len = 0 ∧ ¬req.body_len = 5 := by
  have h : decode junk0 (strBytes "GET / HTTP/1.1\r\ncontent-length: 5\r\n\r\n") =
      (Except.ok (some (Request.mk (0, 3) (4, 5) 1
        (((16, 30), (32, 33)) :: List.replicate 255 junk0)
        (strBytes "GET / HTTP/1.1\r\ncontent-length: 5\r\n\r\n") none 1 0)), []) := by
    decide
  exact ⟨_, h, by decide, by decide, by decide, by decide⟩

/-- C3 (amended): for every decoded request, the declared body length
equals the base-10 unsigned-integer parse of the value of the last
header whose name equals `Content-Length` by exact (case-sensitive)
byte comparison, defaulting to 0 when no such header is present or when
its value fails to parse; a parse failure is never fatal to the
decode. -/
theorem c3_body_len_amended (junk : DataRange × DataRange)
    (buf rest : Bytes) (req : Request)
    (h : decode junk buf = (Except.ok (some req), rest)) :
    req.body_len = declaredBodyLen (resolvedHeaders req) := by
  obtain ⟨hd, hpr, hm, hp2, hv, hheaders, hdata, hbody, hlen, hbl, hrest⟩ :=
    decode_complete_elim junk buf _ req h
  obtain ⟨hamt, h4, -, -, -, -, hhdr, -, -, -, -⟩ :=
    parseRequest_bounds buf hd hpr
  have hRH : resolvedHeaders req =
      hd.headers.map (fun p => (sliceBytes buf p.1, sliceBytes buf p.2)) := by
    unfold resolvedHeaders
    rw [hheaders, hlen, List.take_left' rfl, hdata]
    apply List.map_congr_left
    intro p hp
    have hb := hhdr p hp
    rw [sliceBytes_take buf hd.amt p.1 hb.1 hb.2.1,
        sliceBytes_take buf hd.amt p.2 hb.2.2.1 hb.2.2.2]
  rw [hbl, hRH]
  unfold declaredBodyLen bodyLenOf
  rw [List.foldl_map]

/-- C3 witness: the amended theorem applied to an input whose
`Content-Length` value does not parse; the decode still completes and
the declared length defaults to 0. -/
theorem c3_witness :
    ∃ req rest,
      decode junk0 (strBytes "GET / HTTP/1.1\r\nContent-Length: abc\r\n\r\n") =
        (Except.ok (some req), rest) ∧
      req.body_len = declaredBodyLen (resolvedHeaders req) := by
  have h : decode junk0 (strBytes "GET / HTTP/1.1\r\nContent-Length: abc\r\n\r\n") =
      (Except.ok (some (Request.mk (0, 3) (4, 5) 1
        (((16, 30), (32, 35)) :: List.replicate 255 junk0)
        (strBytes "GET / HTTP/1.1\r\nContent-Length: abc\r\n\r\n") none 1 0)), []) := by
    decide
  exact ⟨_, _, h, c3_body_len_amended junk0 _ _ _ h⟩

/-- C8: decoding the input bytes `GET / HTTP/1.1\r\nHost: x\r\n\r\n`
returns a Complete request with method `GET`, path `/`, version 1,
exactly one header whose name is `Host` and whose value is `x`, and no
body. -/
theorem c8_scenarioA :
    ∃ req, decode junk0 (strBytes "GET / HTTP/1.1\r\nHost: x\r\n\r\n") =
        (Except.ok (some req), []) ∧
      sliceBytes req.data req.method = strBytes "GET" ∧
      sliceBytes req.data req.path = strBytes "/" ∧
      req.version = 1 ∧ req.header_len = 1 ∧
      resolvedHeaders req = [(strBytes "Host", strBytes "x")] ∧
      req.body = none ∧ req.body_len = 0 := by
  have h : decode junk0 (strBytes "GET / HTTP/1.1\r\nHost: x\r\n\r\n") =
      (Except.ok (some (Request.mk (0, 3) (4, 5) 1
        (((16, 20), (22, 23)) :: List.replicate 255 junk0)
        (strBytes "GET / HTTP/1.1\r\nHost: x\r\n\r\n") none 1 0)), []) := by decide
  exact ⟨_, h, by decide, by decide, by decide, by decide, by decide,
         by decide, by decide⟩

/-- C1: contrary to the claim, delivering
`POST /a HTTP/1.1\r\nContent-Length: 5\r\n\r\nhel` then `lo` leaves the
handler still waiting for more input — no request is decoded and no
response is produced — because the head-completion check only inspects
the last four received bytes, which here are body bytes.  The same
bytes in one single read, and the split with the body entirely in the
second read, fare no better: `remain == 0` is only checked when the
last four received bytes are CRLF CRLF, which body bytes are not. -/
theorem c1_chunked_body_never_decoded :
    handler junk0
      [ReadEv.chunk (strBytes "POST /a HTTP/1.1\r\nContent-Length: 5\r\n\r\nhel"),
       ReadEv.chunk (strBytes "lo")] = HOut.needMore ∧
    handler junk0
      [ReadEv.chunk (strBytes "POST /a HTTP/1.1\r\nContent-Length: 5\r\n\r\nhello")] =
      HOut.needMore ∧
    handler junk0
      [ReadEv.chunk (strBytes "POST /a HTTP/1.1\r\nContent-Length: 5\r\n\r\n"),
       ReadEv.chunk (strBytes "hello")] = HOut.needMore := by
  refine ⟨by decide, by decide, by decide⟩

/-- C9: the handler's index and subtraction arithmetic underflows on
peer input violating the unstated preconditions: a first read smaller
than four bytes makes `bytes_pool[req_bytes_cnt - 4..req_bytes_cnt]`
underflow; a peer sending more body bytes than remain declared makes
`remain_body_len -= n` underflow; excess bytes beyond the declared
`Content-Length` already in the pool at decode time make
`req.body_len - bytes_pool.len()` underflow.  A bodyless request whose
single read ends at the terminator is handled without panic. -/
theorem c9_handler_underflows :
    handler junk0 [ReadEv.chunk (strBytes "GET")] = HOut.panic ∧
    handler junk0
      [ReadEv.chunk (strBytes "POST /a HTTP/1.1\r\nContent-Length: 1\r\n\r\n"),
       ReadEv.chunk (strBytes "xx")] = HOut.panic ∧
    handler junk0
      [ReadEv.chunk (strBytes "POST /a HTTP/1.1\r\nContent-Length: 1\r\n\r\nxx\r\n\r\n")] =
      HOut.panic ∧
    handler junk0 [ReadEv.chunk (strBytes "GET / HTTP/1.1\r\nHost: x\r\n\r\n")] =
      HOut.response (Request.mk (0, 3) (4, 5) 1
        (((16, 20), (22, 23)) :: List.replicate 255 junk0)
        (strBytes "GET / HTTP/1.1\r\nHost: x\r\n\r\n") none 1 0) := by
  refine ⟨by decide, by decide, by decide, by decide⟩

/-- C2 counterexample: a write call reporting zero bytes written with no
error is not retried: with 5 bytes to send and a single `Ok(0)` write
result, the loop breaks and the phase completes without a socket error
while 5 bytes remain unwritten. -/
theorem c2_counterexample :
    writeLoop [WriteEv.ok 0] 5 = WOut.done 5 ∧ ¬(5 : Nat) = 0 := by decide

/-- C2 (amended): whenever the response-writing phase completes without
a socket error and no write call reported zero bytes written, every
byte of the encoded response has been written: nonzero partial writes
are retried by looping and advancing past the written prefix.  (A
zero-byte write instead breaks out of the loop, reporting success with
the remaining bytes unsent.) -/
theorem c2_write_loop_amended (evs : List WriteEv) (left r : Nat)
    (hz : ∀ ev ∈ evs, ¬ev = WriteEv.ok 0)
    (h : writeLoop evs left = WOut.done r) : r = 0 := by
  induction evs generalizing left with
  | nil =>
    cases left with
    | zero => simp [writeLoop] at h; omega
    | succ l => simp [writeLoop] at h
  | cons ev rest ih =>
    cases left with
    | zero => simp [writeLoop] at h; omega
    | succ l =>
      cases ev with
      | err => simp [writeLoop] at h
      | ok n =>
        have hn : ¬n = 0 := by
          intro h0
          exact hz (WriteEv.ok n) (List.mem_cons_self _ _) (by rw [h0])
        rw [writeLoop] at h
        rw [if_neg hn] at h
        split at h
        · cases h
        · exact ih _ (fun ev hm => hz ev (List.mem_cons_of_mem _ hm)) h

/-- C2 witness: the amended theorem applied to a script of two nonzero
partial writes covering 5 bytes. -/
theorem c2_witness :
    (∀ ev ∈ [WriteEv.ok 3, WriteEv.ok 2], ¬ev = WriteEv.ok 0) ∧
    writeLoop [WriteEv.ok 3, WriteEv.ok 2] 5 = WOut.done 0 ∧ (0 : Nat) = 0 := by
  refine ⟨by decide, by decide, ?_⟩
  exact c2_write_loop_amended [WriteEv.ok 3, WriteEv.ok 2] 5 0 (by decide)
    (by decide)

theorem foldl_headers_flatten (l : List (Bytes × Bytes)) :
    ∀ init : Bytes,
      l.foldl (fun b h => b ++ h.1 ++ strBytes ": " ++ h.2 ++ [13, 10]) init =
      init ++
        (l.map (fun h => h.1 ++ strBytes ": " ++ h.2 ++ [13, 10])).flatten := by
  induction l with
  | nil => intro init; simp
  | cons x xs ih =>
    intro init
    simp only [List.foldl_cons, List.map_cons, List.flatten_cons]
    rw [ih]
    simp [List.append_assoc]

/-- C4: one call to `encode` produces exactly, in order: the status line
`HTTP/1.1 <code> <message>\r\n` (default `200 OK` when no explicit code
was set), the fixed `Server` header, a `Content-Length` header whose
value is the decimal byte length of the accumulated body, a `Date`
header, each caller-supplied header verbatim in the order added, a
blank line, and exactly the body bytes at the end. -/
theorem c4_encode_layout (r : Response) (now : Bytes) :
    Response.encode r now =
      (strBytes "HTTP/1.1 " ++ statusMsgText r.status_msg ++ strBytes "\r\n") ++
      strBytes "Server: Example\r\n" ++
      (strBytes "Content-Length: " ++ natDecimal r.response.length ++
        strBytes "\r\n") ++
      (strBytes "Date: " ++ now ++ strBytes "\r\n") ++
      (r.headers.map (fun h => h.1 ++ strBytes ": " ++ h.2 ++ [13, 10])).flatten ++
      strBytes "\r\n" ++ r.response ∧
    statusMsgText StatusMsg.ok = strBytes "200 OK" := by
  constructor
  · unfold Response.encode
    rw [foldl_headers_flatten]
    have h1 : strBytes "\r\nServer: Example\r\nContent-Length: " =
        strBytes "\r\n" ++ strBytes "Server: Example\r\n" ++
        strBytes "Content-Length: " := by decide
    have h2 : strBytes "\r\nDate: " = strBytes "\r\n" ++ strBytes "Date: " := by
      decide
    have h3 : ([13, 10] : Bytes) = strBytes "\r\n" := by decide
    rw [h1, h2, h3]
    simp [List.append_assoc]
  · rfl

theorem writeLoop_single_full (L : Nat) :
    writeLoop [WriteEv.ok L] L = WOut.done 0 := by
  cases L with
  | zero => rfl
  | succ l =>
    rw [writeLoop]
    rw [if_neg (by omega)]
    rw [if_neg (by omega)]
    rw [Nat.sub_self]
    rfl

/-- C6: when the application callback fails, the builder's content is
discarded and the synthesized response is encoded instead: for every
builder state the emitted bytes are exactly the `500 Internal Server
Error` status line, the fixed `Server` header, a `Content-Length` for
the message, the `Date` header, a blank line (no caller headers), and
the failure's textual description as the body; the write phase then
runs on those bytes and completes normally (`Ok`), while a successful
callback encodes the caller's builder. -/
theorem c6_callback_failure_synthesizes_500 (e : Bytes) (resp : Response)
    (now : Bytes) :
    respBytes (Except.error e) resp now =
      strBytes "HTTP/1.1 500 Internal Server Error\r\nServer: Example\r\nContent-Length: " ++
      natDecimal e.length ++ strBytes "\r\nDate: " ++ now ++
      strBytes "\r\n\r\n" ++ e ∧
    respBytes (Except.error e) resp now =
      respBytes (Except.error e) Response.new now ∧
    process_and_write_response (Except.error e) resp now
      [WriteEv.ok (respBytes (Except.error e) resp now).length] = WOut.done 0 ∧
    respBytes (Except.ok ()) resp now = resp.encode now := by
  have h1 : ∀ t : Bytes,
      strBytes "HTTP/1.1 " ++ (natDecimal 500 ++ ([32] ++
        (strBytes "Internal Server Error" ++
          (strBytes "\r\nServer: Example\r\nContent-Length: " ++ t)))) =
      strBytes "HTTP/1.1 500 Internal Server Error\r\nServer: Example\r\nContent-Length: " ++ t := by
    intro t
    simp only [← List.append_assoc]
    exact congrArg (fun z => z ++ t) (by decide)
  have h2 : ∀ t : Bytes, strBytes "\r\n" ++ ([13, 10] ++ t) =
      strBytes "\r\n\r\n" ++ t := by
    intro t
    simp only [← List.append_assoc]
    exact congrArg (fun z => z ++ t) (by decide)
  refine ⟨?_, rfl, ?_, rfl⟩
  · show (internal_error_resp e).encode now = _
    have hresp : internal_error_resp e =
        { headers := [], response := e,
          status_msg := .custom 500 (strBytes "Internal Server Error") } := rfl
    rw [hresp]
    unfold Response.encode
    dsimp only
    rw [List.foldl_nil]
    simp only [statusMsgText]
    simp only [List.append_assoc]
    rw [h2, h1]
  · show writeLoop _ _ = _
    exact writeLoop_single_full _

/-- C7 counterexample: two calls within the same second-aligned window
can return different texts.  After a re-format at time 9300 ms (text
shows second 9, expiry 10300), the calls at 10100 and 10500 — both in
the second-aligned window of second 10 — return the second-9 text and
the second-10 text respectively: the cache window starts at the last
re-format, not at a second boundary. -/
theorem c7_counterexample :
    (nowFmt 9300 ⟨0, none⟩).2 = (⟨9, some 10300⟩ : CachedNow) ∧
    10100 / 1000 = (10500 : Nat) / 1000 ∧
    (nowFmt 10100 (⟨9, some 10300⟩ : CachedNow)).1 = 9 ∧
    (nowFmt 10100 (⟨9, some 10300⟩ : CachedNow)).2 =
      (⟨9, some 10300⟩ : CachedNow) ∧
    (nowFmt 10500 (⟨9, some 10300⟩ : CachedNow)).1 = 10 ∧
    ¬(9 : Nat) = 10 := by
  decide

/-- C7 (amended): the Cached Clock returns the identical text, with the
stored state unchanged and no re-formatting, for any two calls at or
before the stored expiry; each re-format stores the current time's text
and sets the expiry to one second later; and a call strictly after the
expiry re-formats to a new, strictly later text. -/
theorem c7_cached_clock_amended (c : CachedNow) (u t1 t2 now : Nat)
    (h1 : t1 ≤ u + 1000) (h2 : t2 ≤ u + 1000) (h3 : u + 1000 < now) :
    (nowFmt t1 (c.update u)).1 = (nowFmt t2 (c.update u)).1 ∧
    (nowFmt t1 (c.update u)).2 = c.update u ∧
    (c.update u).next_update = some (u + 1000) ∧
    (c.update u).text = u / 1000 ∧
    (nowFmt now (c.update u)).1 = now / 1000 ∧
    (c.update u).text < (nowFmt now (c.update u)).1 := by
  have e1 : nowFmt t1 (c.update u) = (u / 1000, c.update u) := by
    simp only [nowFmt, CachedNow.update]
    rw [if_neg (by omega)]
  have e2 : nowFmt t2 (c.update u) = (u / 1000, c.update u) := by
    simp only [nowFmt, CachedNow.update]
    rw [if_neg (by omega)]
  have e3 : nowFmt now (c.update u) =
      (now / 1000, CachedNow.update (c.update u) now) := by
    simp only [nowFmt, CachedNow.update]
    rw [if_pos (by omega)]
  have hdiv : u / 1000 < now / 1000 := by
    have ha : (u + 1000) / 1000 = u / 1000 + 1 :=
      Nat.add_div_right u (by norm_num)
    have hb : (u + 1000) / 1000 ≤ now / 1000 :=
      Nat.div_le_div_right (by omega)
    omega
  rw [e1, e2, e3]
  exact ⟨rfl, rfl, rfl, rfl, rfl, hdiv⟩

/-- C7 witness: the amended theorem at a concrete re-format time and
call times. -/
theorem c7_witness :
    9400 ≤ 9300 + 1000 ∧ 9300 + 1000 < 10500 ∧
    (nowFmt 9400 (CachedNow.update ⟨0, none⟩ 9300)).1 =
      (nowFmt 10300 (CachedNow.update ⟨0, none⟩ 9300)).1 := by
  refine ⟨by decide, by decide, ?_⟩
  exact (c7_cached_clock_amended ⟨0, none⟩ 9300 9400 10300 10500 (by decide)
    (by decide) (by decide)).1

example :
    (decode junk0 (strBytes "GET / HTTP/1.1\r\nHost: x\r\n\r\n")).2 = [] := by
  decide

example :
    (decode junk0 (strBytes "GET / HTTP/1.1\r\nHost: x\r\n\r\n")).1 =
      Except.ok (some
        { method := (0, 3), path := (4, 5), version := 1
          headers := ((16, 20), (22, 23)) :: List.replicate 255 junk0
          data := strBytes "GET / HTTP/1.1\r\nHost: x\r\n\r\n"
          body := none, header_len := 1, body_len := 0 }) := by
  decide
